import Mathlib

/-!
Verification of the QuickDrop file-sharing server (`app.py`, desktop variant,
and `file_transfer_mark-1_for_android_to_pc/app.py`, Termux variant).

The embedding models:
* POSIX path-string operations used by the handlers
  (`os.path.join`, `os.path.split`, the `.replace("\\", "/")` call);
* the filesystem as a tree of nodes, where each node carries an optional
  stat record (`none` models a node on which `os.stat` raises `OSError`)
  and each directory carries a readability flag (`false` models a directory
  on which `os.listdir` raises `OSError`);
* kernel path resolution (splitting a path on slashes and resolving the
  `.` and `..` segments), used to interpret the strings that the handlers
  pass to `os.path.exists` / `os.path.isdir` / `os.listdir` /
  `os.path.getsize` / `os.path.getmtime` / `send_from_directory`;
* the three request handlers `get_info`, `list_files`, `download_file`
  of both source variants, and the relevant behaviour of Flask's
  `send_from_directory` (werkzeug `safe_join` followed by an
  `os.path.isfile` check and a streamed attachment response).
-/

/-! ## String helpers -/

/-- Is the first character of the list a `/` ? -/
def headIsSlash : List Char → Bool
  | [] => false
  | c :: _ => c = '/'

/-- Does the string start with the character `/` ? -/
def startsSlash (s : String) : Bool :=
  headIsSlash s.data

/-- Does the string end with the character `/` ? -/
def endsSlash (s : String) : Bool :=
  headIsSlash s.data.reverse

/-- Does the string start with the three characters `../` ?
(The werkzeug `safe_join` rejection test `filename.startswith("../")`.) -/
def startsDotDotSlash (s : String) : Bool :=
  match s.data with
  | c1 :: c2 :: c3 :: _ => c1 = '.' && c2 = '.' && c3 = '/'
  | _ => false

/-- Does the string contain a backslash character? -/
def hasBackslash (s : String) : Bool :=
  s.data.any (fun c => c = '\\')

/-- `s.replace("\\", "/")`: the pattern is a single character, so the Python
call is exactly a character-wise map. -/
def replaceBackslash (s : String) : String :=
  String.mk (s.data.map fun c => if c = '\\' then '/' else c)

/-! ## `os.path` operations (POSIX semantics) -/

/-- `posixpath.join(a, b)`: if `b` is absolute it wins; otherwise `b` is
appended to `a`, inserting a `/` separator unless `a` is empty or already
ends with `/`. -/
def osPathJoin (a b : String) : String :=
  if startsSlash b then b
  else if a = "" || endsSlash a then a ++ b
  else a ++ "/" ++ b

/-- Strip trailing `/` characters (the `head.rstrip('/')` in
`posixpath.split`). -/
def rstripSlash (l : List Char) : List Char :=
  (l.reverse.dropWhile (fun c => c = '/')).reverse

/-- `posixpath.split(p)`: split at the last `/`; the head keeps its trailing
slashes only when it consists of nothing but slashes. -/
def osPathSplit (p : String) : String × String :=
  let r := p.data.reverse
  let tl := r.takeWhile (fun c => c ≠ '/')
  let hd := (r.dropWhile (fun c => c ≠ '/')).reverse
  let hd := if hd.all (fun c => c = '/') then hd else rstripSlash hd
  (String.mk hd, String.mk tl.reverse)

/-! ## Kernel path resolution -/

/-- Split a character list into the chunks separated by `/`.
`splitSlashChars "a/b".data = ["a".data, "b".data]`, and empty chunks are
kept (`"a//b"` yields an empty middle chunk). -/
def splitSlashChars : List Char → List (List Char)
  | [] => [[]]
  | c :: rest =>
    let r := splitSlashChars rest
    if c = '/' then [] :: r
    else
      match r with
      | [] => [[c]]
      | s :: ss => (c :: s) :: ss

/-- One step of segment normalization: empty segments and `.` are dropped,
`..` pops the last retained segment (at the root it is a no-op, as in
kernel resolution of an absolute path), anything else is retained.
The accumulator holds the retained segments in reverse order. -/
def normStep (acc : List (List Char)) (seg : List Char) : List (List Char) :=
  if seg = [] || seg = ['.'] then acc
  else if seg = ['.', '.'] then acc.tail
  else seg :: acc

/-- Resolve a path string to its canonical segment list, as the kernel does
when the handlers touch the filesystem: split on `/`, drop empty and `.`
segments, resolve `..` segments. -/
def normalizeSegs (p : String) : List (List Char) :=
  ((splitSlashChars p.data).foldl normStep []).reverse

/-- Segment-boundary containment test: the canonical form of `p` starts with
the canonical form of `root`. -/
def withinRoot (root p : String) : Bool :=
  decide ((normalizeSegs p).take (normalizeSegs root).length = normalizeSegs root)

/-! ## Filesystem model -/

/-- The result of a successful `os.stat`: the two fields the handlers use. -/
structure StatInfo where
  size : Nat
  mtime : Int
deriving DecidableEq, Repr

/-- A filesystem node.  `st = none` models a node whose `os.stat` raises
`OSError` (vanished or inaccessible entry); a directory with
`readable = false` models one whose `os.listdir` raises `OSError`. -/
inductive FSNode where
  | file (content : List Nat) (st : Option StatInfo)
  | dir (st : Option StatInfo) (readable : Bool) (children : List (String × FSNode))

/-- Walk a canonical segment list down the tree. -/
def lookupNode : FSNode → List (List Char) → Option FSNode
  | node, [] => some node
  | FSNode.file _ _, _ :: _ => none
  | FSNode.dir _ _ cs, s :: rest =>
    match cs.find? (fun c => c.fst.data = s) with
    | some c => lookupNode c.snd rest
    | none => none

/-- The node a path string denotes, if any. -/
def resolveNode (fs : FSNode) (p : String) : Option FSNode :=
  lookupNode fs (normalizeSegs p)

/-- `os.stat` through a path: the stat record, or `none` when the call
raises `OSError` (missing node or failing stat). -/
def pstat (fs : FSNode) (p : String) : Option StatInfo :=
  match resolveNode fs p with
  | some (FSNode.file _ st) => st
  | some (FSNode.dir st _ _) => st
  | none => none

/-- `os.path.exists(p)`: true when `os.stat` succeeds. -/
def pexists (fs : FSNode) (p : String) : Bool :=
  (pstat fs p).isSome

/-- `os.path.isdir(p)`: true when `os.stat` succeeds and reports a
directory. -/
def pisdir (fs : FSNode) (p : String) : Bool :=
  match resolveNode fs p with
  | some (FSNode.dir st _ _) => st.isSome
  | _ => false

/-- Is the path bound to a file node (regardless of stat health)? -/
def isFileNode (fs : FSNode) (p : String) : Bool :=
  match resolveNode fs p with
  | some (FSNode.file _ _) => true
  | _ => false

/-- `os.listdir(p)`: the children names in enumeration order, or `none`
when the call raises `OSError`. -/
def plistdir (fs : FSNode) (p : String) : Option (List String) :=
  match resolveNode fs p with
  | some (FSNode.dir _ r cs) => if r then some (cs.map Prod.fst) else none
  | _ => none

/-- The bytes of the file at `p`, when `p` is a healthy file
(`os.path.isfile` true, open succeeds). -/
def fileContentAt (fs : FSNode) (p : String) : Option (List Nat) :=
  match resolveNode fs p with
  | some (FSNode.file content st) => if st.isSome then some content else none
  | _ => none

/-! ## The handlers of `src/app.py` -/

/-- One JSON item of the `/api/files/` response, as built in the loop body
of `list_files`. -/
structure Entry where
  name : String
  path : String
  is_dir : Bool
  size : Nat
  last_modified : Int
deriving DecidableEq, Repr

/-- The possible handler outcomes.  `forbidden` (HTTP 403) is part of the
response vocabulary of the specification; `uncaughtError` stands for an
exception escaping the handler, which Flask turns into a generic 500. -/
inductive Response where
  | listing (items : List Entry)
  | fileResponse (filename : String) (content : List Nat)
  | notFound
  | forbidden
  | uncaughtError
deriving DecidableEq, Repr

/-- The loop body of `list_files`: build the JSON item for child `n` of
`directory`, or skip it (`none`) when `os.path.getsize` / `os.path.getmtime`
raises `OSError`.  `is_dir` is computed before the `try` block and never
raises. -/
def mkItem (fs : FSNode) (directory subpath n : String) : Option Entry :=
  let item_path := osPathJoin directory n
  let is_dir := pisdir fs item_path
  match pstat fs item_path with
  | none => none
  | some st =>
    some { name := n
           path := replaceBackslash (osPathJoin subpath n)
           is_dir := is_dir
           size := if is_dir then 0 else st.size
           last_modified := st.mtime }

/-- `list_files(subpath)` of `src/app.py` (lines 77-103). -/
def list_files (fs : FSNode) (SHARED_DIRECTORY subpath : String) : Response :=
  let directory := osPathJoin SHARED_DIRECTORY subpath
  if !pexists fs directory || !pisdir fs directory then
    Response.notFound
  else
    match plistdir fs directory with
    | none => Response.uncaughtError
    | some names => Response.listing (names.filterMap (mkItem fs directory subpath))

/-- Flask's `send_from_directory(dir_path, filename, as_attachment=True)`:
werkzeug `safe_join` rejects an absolute `filename`, `".."`, or a
`"../"`-leading `filename` (404); otherwise the joined path is served as an
attachment when `os.path.isfile` holds, else 404. -/
def send_from_directory (fs : FSNode) (dir_path filename : String) : Response :=
  if startsSlash filename || filename = ".." || startsDotDotSlash filename then
    Response.notFound
  else
    match fileContentAt fs (osPathJoin dir_path filename) with
    | some content => Response.fileResponse filename content
    | none => Response.notFound

/-- `download_file(filepath)` of `src/app.py` (lines 105-113). -/
def download_file (fs : FSNode) (SHARED_DIRECTORY filepath : String) : Response :=
  let abs_path := osPathJoin SHARED_DIRECTORY filepath
  if !pexists fs abs_path || pisdir fs abs_path then
    Response.notFound
  else
    let sp := osPathSplit abs_path
    send_from_directory fs sp.fst sp.snd

/-- The process-wide startup state set by `select_folder_and_start_server`. -/
structure AppState where
  SHARED_DIRECTORY : String
  ROOT_FOLDER_NAME : String
  PORT : Nat
deriving DecidableEq, Repr

/-- `get_info()` of `src/app.py` (lines 72-75): the JSON object of the
`/api/info` response, as a key/value list. -/
def get_info (st : AppState) : List (String × String) :=
  [("root_folder_name", st.ROOT_FOLDER_NAME)]

/-! ## The handlers of the Termux variant
(`src/file_transfer_mark-1_for_android_to_pc/app.py`) -/

namespace Termux

/-- Loop body of the Termux `list_files` (lines 65-78). -/
def mkItem (fs : FSNode) (directory subpath n : String) : Option Entry :=
  let item_path := osPathJoin directory n
  let is_dir := pisdir fs item_path
  match pstat fs item_path with
  | none => none
  | some st =>
    some { name := n
           path := replaceBackslash (osPathJoin subpath n)
           is_dir := is_dir
           size := if is_dir then 0 else st.size
           last_modified := st.mtime }

/-- `list_files(subpath)` of the Termux variant (lines 58-79). -/
def list_files (fs : FSNode) (SHARED_DIRECTORY subpath : String) : Response :=
  let directory := osPathJoin SHARED_DIRECTORY subpath
  if !pexists fs directory || !pisdir fs directory then
    Response.notFound
  else
    match plistdir fs directory with
    | none => Response.uncaughtError
    | some names => Response.listing (names.filterMap (mkItem fs directory subpath))

/-- `download_file(filepath)` of the Termux variant (lines 81-88). -/
def download_file (fs : FSNode) (SHARED_DIRECTORY filepath : String) : Response :=
  let abs_path := osPathJoin SHARED_DIRECTORY filepath
  if !pexists fs abs_path || pisdir fs abs_path then
    Response.notFound
  else
    let sp := osPathSplit abs_path
    send_from_directory fs sp.fst sp.snd

/-- `get_info()` of the Termux variant (lines 54-56). -/
def get_info (st : AppState) : List (String × String) :=
  [("root_folder_name", st.ROOT_FOLDER_NAME)]

end Termux

/-! ## Helper observations on responses -/

/-- The names of the items of a listing response (empty for the other
response kinds). -/
def itemNames : Response → List String
  | Response.listing items => items.map Entry.name
  | _ => []

/-- Is the response a listing at all? -/
def isListing : Response → Bool
  | Response.listing _ => true
  | _ => false

/-! ## Concrete filesystems used in the witnesses and counterexamples -/

/-- A root filesystem with the shared folder `/share` (holding
`hello.txt`) next to an unshared sibling `/secret` (holding `x.txt`). -/
def fsTraversal : FSNode :=
  FSNode.dir (some ⟨0, 0⟩) true
    [("share", FSNode.dir (some ⟨0, 0⟩) true
        [("hello.txt", FSNode.file [104, 105] (some ⟨2, 1⟩))]),
     ("secret", FSNode.dir (some ⟨0, 0⟩) true
        [("x.txt", FSNode.file [1, 2, 3] (some ⟨3, 7⟩))])]

/-- `/share` containing, in enumeration order, the file `b.txt`, the
subdirectory `A` and the file `a.txt`. -/
def fsSortDemo : FSNode :=
  FSNode.dir (some ⟨0, 0⟩) true
    [("share", FSNode.dir (some ⟨0, 0⟩) true
        [("b.txt", FSNode.file [98] (some ⟨1, 2⟩)),
         ("A", FSNode.dir (some ⟨0, 3⟩) true []),
         ("a.txt", FSNode.file [97] (some ⟨1, 4⟩))])]

/-- `/share` containing a file whose name contains a backslash. -/
def fsBackslash : FSNode :=
  FSNode.dir (some ⟨0, 0⟩) true
    [("share", FSNode.dir (some ⟨0, 0⟩) true
        [("a\\b.txt", FSNode.file [9, 9] (some ⟨2, 5⟩))])]

/-- `/share` containing a healthy file and a file whose stat fails. -/
def fsGhost : FSNode :=
  FSNode.dir (some ⟨0, 0⟩) true
    [("share", FSNode.dir (some ⟨0, 0⟩) true
        [("ghost.txt", FSNode.file [0] none),
         ("good.txt", FSNode.file [5, 6] (some ⟨2, 9⟩))])]

/-- `/share` containing a subdirectory that cannot be enumerated. -/
def fsUnreadable : FSNode :=
  FSNode.dir (some ⟨0, 0⟩) true
    [("share", FSNode.dir (some ⟨0, 0⟩) true
        [("locked", FSNode.dir (some ⟨0, 11⟩) false [])])]

/-- `/share` containing a subdirectory `sub` with one file. -/
def fsParent : FSNode :=
  FSNode.dir (some ⟨0, 0⟩) true
    [("share", FSNode.dir (some ⟨0, 0⟩) true
        [("sub", FSNode.dir (some ⟨0, 1⟩) true
            [("x.txt", FSNode.file [42] (some ⟨1, 1⟩))])])]

/-- `/share` containing a subdirectory `docs` with one clean file. -/
def fsClean : FSNode :=
  FSNode.dir (some ⟨0, 0⟩) true
    [("share", FSNode.dir (some ⟨0, 0⟩) true
        [("docs", FSNode.dir (some ⟨0, 5⟩) true
            [("hello.txt", FSNode.file [104, 105, 33] (some ⟨3, 11⟩))])])]

example : osPathJoin "/share" "../secret" = "/share/../secret" := by decide
example : normalizeSegs "/share/../secret" = ["secret".data] := by decide
example : withinRoot "/share" "/share/../secret" = false := by decide
example : withinRoot "/share" "/share/sub" = true := by decide
example : osPathSplit "/share/a/b.txt" = ("/share/a", "b.txt") := by decide
example : osPathSplit "/x" = ("/", "x") := by decide
example :
    list_files fsTraversal "/share" "" =
      Response.listing
        [{ name := "hello.txt", path := "hello.txt", is_dir := false,
           size := 2, last_modified := 1 }] := by decide
example :
    download_file fsTraversal "/share" "hello.txt" =
      Response.fileResponse "hello.txt" [104, 105] := by decide

/-! ## General lemmas about `list_files` -/

/-- The names of the built items are exactly the enumerated names whose stat
succeeds, in enumeration order. -/
theorem names_of_filterMap_mkItem (fs : FSNode) (d sp : String) (ns : List String) :
    (ns.filterMap (mkItem fs d sp)).map Entry.name
      = ns.filter (fun n => (pstat fs (osPathJoin d n)).isSome) := by
  induction ns with
  | nil => rfl
  | cons n ns ih =>
    cases h : pstat fs (osPathJoin d n) with
    | none => simp [List.filterMap_cons, List.filter_cons, mkItem, h, ih]
    | some st => simp [List.filterMap_cons, List.filter_cons, mkItem, h, ih]

/-- The listing branch of `list_files`, as a forward equation. -/
theorem list_files_eq_of_guard (fs : FSNode) (SH sp : String) (ns : List String)
    (hex : pexists fs (osPathJoin SH sp) = true)
    (hdir : pisdir fs (osPathJoin SH sp) = true)
    (hls : plistdir fs (osPathJoin SH sp) = some ns) :
    list_files fs SH sp
      = Response.listing (ns.filterMap (mkItem fs (osPathJoin SH sp) sp)) := by
  simp [list_files, hex, hdir, hls]

/-- Inversion: a listing response pins down the guard outcomes and the
items. -/
theorem list_files_listing_inv (fs : FSNode) (SH sp : String) (items : List Entry)
    (h : list_files fs SH sp = Response.listing items) :
    pexists fs (osPathJoin SH sp) = true ∧ pisdir fs (osPathJoin SH sp) = true ∧
    ∃ ns, plistdir fs (osPathJoin SH sp) = some ns ∧
      items = ns.filterMap (mkItem fs (osPathJoin SH sp) sp) := by
  by_cases hex : pexists fs (osPathJoin SH sp) = true
  · by_cases hdir : pisdir fs (osPathJoin SH sp) = true
    · cases hls : plistdir fs (osPathJoin SH sp) with
      | none => simp [list_files, hex, hdir, hls] at h
      | some ns =>
        have h2 := (list_files_eq_of_guard fs SH sp ns hex hdir hls).symm.trans h
        injection h2 with h3
        exact ⟨hex, hdir, ns, rfl, h3.symm⟩
    · rw [Bool.not_eq_true] at hdir
      simp [list_files, hex, hdir] at h
  · rw [Bool.not_eq_true] at hex
    simp [list_files, hex] at h

/-! ## C1 -/

/-- C1: the claim states that a browse or download request whose virtual
path contains `..` segments either gets a 403 or touches only paths inside
`SHARED_DIRECTORY`.  The code has no containment check at all: with shared
root `/share`, the request path `../secret` makes `list_files` serve a
listing of the sibling directory `/secret` (outside the root, no 403), and
`download_file` serves the bytes of `/secret/x.txt`. -/
theorem traversal_escapes_shared_root :
    withinRoot "/share" (osPathJoin "/share" "../secret") = false ∧
    list_files fsTraversal "/share" "../secret" =
      Response.listing
        [{ name := "x.txt", path := "../secret/x.txt", is_dir := false,
           size := 3, last_modified := 7 }] ∧
    withinRoot "/share" (osPathJoin "/share" "../secret/x.txt") = false ∧
    download_file fsTraversal "/share" "../secret/x.txt" =
      Response.fileResponse "x.txt" [1, 2, 3] := by decide

/-! ## C2 -/

/-- C2 (counterexample): for a shared root whose enumeration order is
`b.txt`, `A` (a subdirectory), `a.txt`, the listing endpoint returns the
entries in exactly that order, not the claimed `[A, a.txt, b.txt]`. -/
theorem listFiles_unsorted_counterexample :
    itemNames (list_files fsSortDemo "/share" "") = ["b.txt", "A", "a.txt"] ∧
    itemNames (list_files fsSortDemo "/share" "") ≠ ["A", "a.txt", "b.txt"] := by decide

/-- C2 (amended): the browse endpoint performs no sorting: the listing
presents the stat-healthy children in directory enumeration order
(`os.listdir` order), with no directories-first or case-insensitive
reordering. -/
theorem listFiles_preserves_enumeration_order (fs : FSNode) (SH sp : String)
    (ns : List String)
    (hex : pexists fs (osPathJoin SH sp) = true)
    (hdir : pisdir fs (osPathJoin SH sp) = true)
    (hls : plistdir fs (osPathJoin SH sp) = some ns) :
    itemNames (list_files fs SH sp)
      = ns.filter (fun n => (pstat fs (osPathJoin (osPathJoin SH sp) n)).isSome) := by
  simp [list_files, hex, hdir, hls, itemNames, names_of_filterMap_mkItem]

/-- Witness for `listFiles_preserves_enumeration_order` at the concrete
filesystem `fsSortDemo`. -/
theorem listFiles_preserves_enumeration_order_witness :
    itemNames (list_files fsSortDemo "/share" "") = ["b.txt", "A", "a.txt"] :=
  (listFiles_preserves_enumeration_order fsSortDemo "/share" "" ["b.txt", "A", "a.txt"]
    (by decide) (by decide) (by decide)).trans (by decide)

/-! ## C4 -/

/-- C4: browsing a virtual path that does not exist, or that names a file
rather than a directory, yields 404 and never a listing. -/
theorem listFiles_missing_or_file_is_notFound (fs : FSNode) (SH sp : String)
    (h : pexists fs (osPathJoin SH sp) = false ∨ isFileNode fs (osPathJoin SH sp) = true) :
    list_files fs SH sp = Response.notFound := by
  unfold list_files
  rcases h with h | h
  · simp [h]
  · have hdir : pisdir fs (osPathJoin SH sp) = false := by
      unfold isFileNode at h
      unfold pisdir
      cases hres : resolveNode fs (osPathJoin SH sp) with
      | none => simp [hres] at h
      | some node => cases node <;> simp_all
    simp [hdir]

/-- Witness for `listFiles_missing_or_file_is_notFound`: a missing path and
a file path, both 404. -/
theorem listFiles_missing_or_file_is_notFound_witness :
    list_files fsTraversal "/share" "nope" = Response.notFound ∧
    list_files fsTraversal "/share" "hello.txt" = Response.notFound :=
  ⟨listFiles_missing_or_file_is_notFound fsTraversal "/share" "nope" (Or.inl (by decide)),
   listFiles_missing_or_file_is_notFound fsTraversal "/share" "hello.txt" (Or.inr (by decide))⟩

/-! ## C5 -/

/-- C5: downloading a virtual path that does not exist, or that names a
directory, yields 404; directory contents are never served as a byte
stream. -/
theorem downloadFile_missing_or_dir_is_notFound (fs : FSNode) (SH fp : String)
    (h : pexists fs (osPathJoin SH fp) = false ∨ pisdir fs (osPathJoin SH fp) = true) :
    download_file fs SH fp = Response.notFound := by
  unfold download_file
  rcases h with h | h <;> simp [h]

/-- Witness for `downloadFile_missing_or_dir_is_notFound`: a missing path
and a directory path, both 404. -/
theorem downloadFile_missing_or_dir_is_notFound_witness :
    download_file fsParent "/share" "nope" = Response.notFound ∧
    download_file fsParent "/share" "sub" = Response.notFound :=
  ⟨downloadFile_missing_or_dir_is_notFound fsParent "/share" "nope" (Or.inl (by decide)),
   downloadFile_missing_or_dir_is_notFound fsParent "/share" "sub" (Or.inr (by decide))⟩

/-! ## C6 -/

/-- C6: a stat failure on one child never fails the whole listing: the
response is still a listing, the failing child is skipped, and every
stat-healthy child is present. -/
theorem listFiles_skips_failing_stat (fs : FSNode) (SH sp n : String) (ns : List String)
    (hex : pexists fs (osPathJoin SH sp) = true)
    (hdir : pisdir fs (osPathJoin SH sp) = true)
    (hls : plistdir fs (osPathJoin SH sp) = some ns)
    (hn : n ∈ ns)
    (hfail : pstat fs (osPathJoin (osPathJoin SH sp) n) = none) :
    isListing (list_files fs SH sp) = true ∧
    n ∉ itemNames (list_files fs SH sp) ∧
    ∀ m ∈ ns, (pstat fs (osPathJoin (osPathJoin SH sp) m)).isSome = true →
      m ∈ itemNames (list_files fs SH sp) := by
  have hnames := listFiles_preserves_enumeration_order fs SH sp ns hex hdir hls
  refine ⟨?_, ?_, ?_⟩
  · simp [list_files, hex, hdir, hls, isListing]
  · rw [hnames]
    intro hmem
    have hp := List.of_mem_filter hmem
    simp [hfail] at hp
  · intro m hm hst
    rw [hnames]
    exact List.mem_filter.mpr ⟨hm, by simp [hst]⟩

/-- Witness for `listFiles_skips_failing_stat` at `fsGhost`, whose child
`ghost.txt` has a failing stat while `good.txt` is healthy. -/
theorem listFiles_skips_failing_stat_witness :
    isListing (list_files fsGhost "/share" "") = true ∧
    "ghost.txt" ∉ itemNames (list_files fsGhost "/share" "") ∧
    ∀ m ∈ ["ghost.txt", "good.txt"],
      (pstat fsGhost (osPathJoin (osPathJoin "/share" "") m)).isSome = true →
        m ∈ itemNames (list_files fsGhost "/share" "") :=
  listFiles_skips_failing_stat fsGhost "/share" "" "ghost.txt" ["ghost.txt", "good.txt"]
    (by decide) (by decide) (by decide) (by decide) (by decide)

/-! ## C7 -/

/-- C7 (counterexample): when the resolved directory exists but cannot be
enumerated, `list_files` does not return a typed 404/403-equivalent: the
`OSError` raised by `os.listdir` escapes the handler uncaught (Flask turns
it into a generic 500). -/
theorem listFiles_unreadable_counterexample :
    list_files fsUnreadable "/share" "locked" = Response.uncaughtError ∧
    Response.uncaughtError ≠ Response.notFound ∧
    Response.uncaughtError ≠ Response.forbidden := by decide

/-- C7 (amended): if the resolved directory exists and is a directory but
its enumeration fails, the handler propagates the failure uncaught rather
than returning any typed error response. -/
theorem listFiles_unreadable_uncaught (fs : FSNode) (SH sp : String)
    (hex : pexists fs (osPathJoin SH sp) = true)
    (hdir : pisdir fs (osPathJoin SH sp) = true)
    (hls : plistdir fs (osPathJoin SH sp) = none) :
    list_files fs SH sp = Response.uncaughtError := by
  simp [list_files, hex, hdir, hls]

/-- Witness for `listFiles_unreadable_uncaught` at `fsUnreadable`. -/
theorem listFiles_unreadable_uncaught_witness :
    list_files fsUnreadable "/share" "locked" = Response.uncaughtError :=
  listFiles_unreadable_uncaught fsUnreadable "/share" "locked"
    (by decide) (by decide) (by decide)

/-! ## C8 -/

/-- C8 (counterexample): for the non-empty virtual path `sub`, the listing
contains exactly the one child entry `x.txt`; no parent-directory marker is
emitted, first or anywhere. -/
theorem listFiles_no_parent_marker_counterexample :
    itemNames (list_files fsParent "/share" "sub") = ["x.txt"] ∧
    list_files fsParent "/share" "sub" =
      Response.listing
        [{ name := "x.txt", path := "sub/x.txt", is_dir := false,
           size := 1, last_modified := 1 }] := by decide

/-- C8 (amended): the listing never contains a parent-directory marker:
every returned entry is one of the enumerated children, and its `path`
field is the virtual path joined with the child name. -/
theorem listFiles_entries_are_children (fs : FSNode) (SH sp : String)
    (items : List Entry) (ns : List String)
    (h : list_files fs SH sp = Response.listing items)
    (hls : plistdir fs (osPathJoin SH sp) = some ns) :
    ∀ e ∈ items, e.name ∈ ns ∧ e.path = replaceBackslash (osPathJoin sp e.name) := by
  obtain ⟨hex, hdir, ns2, hls2, hitems⟩ := list_files_listing_inv fs SH sp items h
  rw [hls] at hls2
  injection hls2 with hns
  subst hns
  intro e he
  rw [hitems] at he
  obtain ⟨n, hn, hmk⟩ := List.mem_filterMap.mp he
  simp only [mkItem] at hmk
  cases hstat : pstat fs (osPathJoin (osPathJoin SH sp) n) with
  | none =>
    rw [hstat] at hmk
    simp at hmk
  | some st =>
    rw [hstat] at hmk
    simp only [Option.some.injEq] at hmk
    subst hmk
    exact ⟨hn, rfl⟩

/-- Witness for `listFiles_entries_are_children` at `fsParent` with the
non-empty virtual path `sub`, instantiated at its single entry. -/
theorem listFiles_entries_are_children_witness :
    (Entry.mk "x.txt" "sub/x.txt" false 1 1).name ∈ ["x.txt"] ∧
    (Entry.mk "x.txt" "sub/x.txt" false 1 1).path
      = replaceBackslash (osPathJoin "sub" (Entry.mk "x.txt" "sub/x.txt" false 1 1).name) :=
  listFiles_entries_are_children fsParent "/share" "sub"
    [Entry.mk "x.txt" "sub/x.txt" false 1 1] ["x.txt"] (by decide) (by decide)
    (Entry.mk "x.txt" "sub/x.txt" false 1 1) (by decide)

/-! ## C9 -/

/-- C9 (counterexample): the `/api/info` response object has the single key
`root_folder_name`; it contains no sharing flag, no host IP and no port. -/
theorem getInfo_missing_fields_counterexample :
    (get_info ⟨"/share", "share", 5000⟩).map Prod.fst = ["root_folder_name"] ∧
    "sharing" ∉ (get_info ⟨"/share", "share", 5000⟩).map Prod.fst ∧
    "ip" ∉ (get_info ⟨"/share", "share", 5000⟩).map Prod.fst ∧
    "port" ∉ (get_info ⟨"/share", "share", 5000⟩).map Prod.fst := by decide

/-- C9 (amended): the info endpoint returns a JSON object holding exactly
the shared folder's display name under the key `root_folder_name`, computed
purely from process-wide startup state (its type takes no filesystem
argument, so it performs no filesystem access). -/
theorem getInfo_returns_only_folder_name (st : AppState) :
    get_info st = [("root_folder_name", st.ROOT_FOLDER_NAME)] := rfl

/-! ## C10 -/

/-- C10: the desktop variant and the Termux variant implement extensionally
equal handlers: for every startup state, filesystem and virtual path, their
info, listing and download endpoints agree. -/
theorem variants_extensionally_equal :
    (∀ st : AppState, Termux.get_info st = get_info st) ∧
    (∀ (fs : FSNode) (SH sp : String), Termux.list_files fs SH sp = list_files fs SH sp) ∧
    (∀ (fs : FSNode) (SH fp : String),
      Termux.download_file fs SH fp = download_file fs SH fp) :=
  ⟨fun _ => rfl, fun _ _ _ => rfl, fun _ _ _ => rfl⟩

/-! ## Path-string algebra (towards the round-trip theorem) -/

theorem str_eq_empty_iff (a : String) : a = "" ↔ a.data = [] := by
  constructor
  · intro h
    subst h
    rfl
  · intro h
    exact String.ext h

theorem data_ne_nil_of_ne_empty (a : String) (h : a ≠ "") : a.data ≠ [] :=
  fun hd => h ((str_eq_empty_iff a).mpr hd)

theorem headIsSlash_append (l1 l2 : List Char) (h : l1 ≠ []) :
    headIsSlash (l1 ++ l2) = headIsSlash l1 := by
  cases l1 with
  | nil => exact absurd rfl h
  | cons c t => rfl

theorem startsSlash_append (a b : String) (h : a.data ≠ []) :
    startsSlash (a ++ b) = startsSlash a := by
  unfold startsSlash
  rw [String.data_append, headIsSlash_append _ _ h]

theorem endsSlash_append (a b : String) (h : b.data ≠ []) :
    endsSlash (a ++ b) = endsSlash b := by
  unfold endsSlash
  rw [String.data_append, List.reverse_append, headIsSlash_append]
  exact fun hrev => h (List.reverse_eq_nil_iff.mp hrev)

theorem endsSlash_append_slash (a : String) : endsSlash (a ++ "/") = true := by
  rw [endsSlash_append a "/" (by decide)]
  decide

theorem startsSlash_empty : startsSlash "" = false := rfl

theorem append_ne_empty_right (a b : String) (h : b ≠ "") : a ++ b ≠ "" := by
  intro hab
  apply h
  rw [str_eq_empty_iff] at hab ⊢
  rw [String.data_append] at hab
  exact (List.append_eq_nil.mp hab).2

/-- `osPathJoin` when the right operand is absolute. -/
theorem osPathJoin_abs (a b : String) (h : startsSlash b = true) :
    osPathJoin a b = b := by
  simp [osPathJoin, h]

/-- `osPathJoin` when no separator is inserted. -/
theorem osPathJoin_of_empty_or_slash (a b : String) (hb : startsSlash b = false)
    (h : a = "" ∨ endsSlash a = true) : osPathJoin a b = a ++ b := by
  rcases h with h | h <;> simp [osPathJoin, hb, h]

/-- `osPathJoin` when a separator is inserted. -/
theorem osPathJoin_of_sep (a b : String) (hb : startsSlash b = false)
    (ha : a ≠ "") (hs : endsSlash a = false) : osPathJoin a b = a ++ "/" ++ b := by
  simp [osPathJoin, hb, ha, hs]

/-- `posixpath.join` is associative (for any operands). -/
theorem osPathJoin_assoc (a b c : String) :
    osPathJoin (osPathJoin a b) c = osPathJoin a (osPathJoin b c) := by
  by_cases hc : startsSlash c = true
  · rw [osPathJoin_abs (osPathJoin a b) c hc, osPathJoin_abs b c hc,
      osPathJoin_abs a c hc]
  · rw [Bool.not_eq_true] at hc
    by_cases hb : startsSlash b = true
    · have hbne : b.data ≠ [] := by
        intro hd
        unfold startsSlash at hb
        rw [hd] at hb
        simp [headIsSlash] at hb
      rw [osPathJoin_abs a b hb]
      have hstart : startsSlash (osPathJoin b c) = true := by
        by_cases hbes : (b = "" ∨ endsSlash b = true)
        · rw [osPathJoin_of_empty_or_slash b c hc hbes, startsSlash_append b c hbne]
          exact hb
        · push_neg at hbes
          have hbes2 : endsSlash b = false := by
            rw [← Bool.not_eq_true]
            exact hbes.2
          rw [osPathJoin_of_sep b c hc hbes.1 hbes2, String.append_assoc,
            startsSlash_append b _ hbne]
          exact hb
      rw [osPathJoin_abs a _ hstart]
    · rw [Bool.not_eq_true] at hb
      by_cases hbe : b = ""
      · subst hbe
        rw [osPathJoin_of_empty_or_slash "" c hc (Or.inl rfl), String.empty_append]
        by_cases hae : (a = "" ∨ endsSlash a = true)
        · rw [osPathJoin_of_empty_or_slash a "" startsSlash_empty hae, String.append_empty]
        · push_neg at hae
          have hae2 : endsSlash a = false := by
            rw [← Bool.not_eq_true]
            exact hae.2
          rw [osPathJoin_of_sep a "" startsSlash_empty hae.1 hae2, String.append_empty,
            osPathJoin_of_empty_or_slash (a ++ "/") c hc (Or.inr (endsSlash_append_slash a)),
            osPathJoin_of_sep a c hc hae.1 hae2]
      · have hbne : b.data ≠ [] := data_ne_nil_of_ne_empty b hbe
        cases hbs : endsSlash b with
        | true =>
          have hj : osPathJoin b c = b ++ c :=
            osPathJoin_of_empty_or_slash b c hc (Or.inr hbs)
          have hsbc : startsSlash (b ++ c) = false := by
            rw [startsSlash_append b c hbne]
            exact hb
          rw [hj]
          by_cases hae : (a = "" ∨ endsSlash a = true)
          · have hebc : endsSlash (a ++ b) = true := by
              rw [endsSlash_append a b hbne]
              exact hbs
            rw [osPathJoin_of_empty_or_slash a b hb hae,
              osPathJoin_of_empty_or_slash (a ++ b) c hc (Or.inr hebc),
              osPathJoin_of_empty_or_slash a (b ++ c) hsbc hae,
              String.append_assoc]
          · push_neg at hae
            have hae2 : endsSlash a = false := by
              rw [← Bool.not_eq_true]
              exact hae.2
            have heb2 : endsSlash (a ++ "/" ++ b) = true := by
              rw [endsSlash_append (a ++ "/") b hbne]
              exact hbs
            rw [osPathJoin_of_sep a b hb hae.1 hae2,
              osPathJoin_of_empty_or_slash (a ++ "/" ++ b) c hc (Or.inr heb2),
              osPathJoin_of_sep a (b ++ c) hsbc hae.1 hae2]
            simp [String.append_assoc]
        | false =>
          have hj : osPathJoin b c = b ++ "/" ++ c := osPathJoin_of_sep b c hc hbe hbs
          have hsbc : startsSlash (b ++ "/" ++ c) = false := by
            rw [String.append_assoc, startsSlash_append b _ hbne]
            exact hb
          rw [hj]
          by_cases hae : (a = "" ∨ endsSlash a = true)
          · have hene : endsSlash (a ++ b) = false := by
              rw [endsSlash_append a b hbne]
              exact hbs
            have habne : (a ++ b) ≠ "" := append_ne_empty_right a b hbe
            rw [osPathJoin_of_empty_or_slash a b hb hae,
              osPathJoin_of_sep (a ++ b) c hc habne hene,
              osPathJoin_of_empty_or_slash a (b ++ "/" ++ c) hsbc hae]
            simp [String.append_assoc]
          · push_neg at hae
            have hae2 : endsSlash a = false := by
              rw [← Bool.not_eq_true]
              exact hae.2
            have hene : endsSlash (a ++ "/" ++ b) = false := by
              rw [endsSlash_append (a ++ "/") b hbne]
              exact hbs
            have habne : (a ++ "/" ++ b) ≠ "" := append_ne_empty_right _ b hbe
            rw [osPathJoin_of_sep a b hb hae.1 hae2,
              osPathJoin_of_sep (a ++ "/" ++ b) c hc habne hene,
              osPathJoin_of_sep a (b ++ "/" ++ c) hsbc hae.1 hae2]
            simp [String.append_assoc]

/-! ## More path algebra: character membership and splitting -/

/-- `replaceBackslash` fixes strings without backslashes. -/
theorem replaceBackslash_eq_self (s : String) (h : ∀ c ∈ s.data, c ≠ '\\') :
    replaceBackslash s = s := by
  apply String.ext
  show s.data.map (fun c => if c = '\\' then '/' else c) = s.data
  have h2 : s.data.map (fun c => if c = '\\' then '/' else c) = s.data.map id :=
    List.map_congr_left (fun c hc => by rw [if_neg (h c hc)]; rfl)
  rw [h2, List.map_id]

/-- Every character of a join comes from an operand or is the separator. -/
theorem osPathJoin_data_sub (a b : String) :
    ∀ c ∈ (osPathJoin a b).data, c ∈ a.data ∨ c ∈ b.data ∨ c = '/' := by
  intro c hc
  by_cases h1 : startsSlash b = true
  · rw [osPathJoin_abs a b h1] at hc
    exact Or.inr (Or.inl hc)
  · rw [Bool.not_eq_true] at h1
    by_cases h2 : (a = "" ∨ endsSlash a = true)
    · rw [osPathJoin_of_empty_or_slash a b h1 h2, String.data_append] at hc
      rcases List.mem_append.mp hc with h | h
      · exact Or.inl h
      · exact Or.inr (Or.inl h)
    · push_neg at h2
      have h3 : endsSlash a = false := by
        rw [← Bool.not_eq_true]
        exact h2.2
      rw [osPathJoin_of_sep a b h1 h2.1 h3, String.data_append, String.data_append] at hc
      rcases List.mem_append.mp hc with h | h
      · rcases List.mem_append.mp h with h4 | h4
        · exact Or.inl h4
        · have h5 : ("/" : String).data = ['/'] := rfl
          rw [h5] at h4
          rcases List.mem_singleton.mp h4 with rfl
          exact Or.inr (Or.inr rfl)
      · exact Or.inr (Or.inl h)

theorem osPathJoin_no_backslash (a b : String)
    (ha : ∀ c ∈ a.data, c ≠ '\\') (hb : ∀ c ∈ b.data, c ≠ '\\') :
    ∀ c ∈ (osPathJoin a b).data, c ≠ '\\' := by
  intro c hc
  rcases osPathJoin_data_sub a b c hc with h | h | h
  · exact ha c h
  · exact hb c h
  · subst h
    decide

theorem no_backslash_of_hasBackslash_false (s : String) (h : hasBackslash s = false) :
    ∀ c ∈ s.data, c ≠ '\\' := by
  intro c hc he
  have h2 : s.data.any (fun c => decide (c = '\\')) = true :=
    List.any_eq_true.mpr ⟨c, hc, by simp [he]⟩
  unfold hasBackslash at h
  rw [h] at h2
  cases h2

theorem takeWhile_append_all {α : Type} (p : α → Bool) (l1 l2 : List α)
    (h : ∀ a ∈ l1, p a = true) :
    (l1 ++ l2).takeWhile p = l1 ++ l2.takeWhile p := by
  induction l1 with
  | nil => rfl
  | cons a t ih =>
    rw [List.cons_append, List.takeWhile_cons, if_pos (h a (List.mem_cons_self a t)),
      ih (fun x hx => h x (List.mem_cons_of_mem a hx)), List.cons_append]

theorem dropWhile_first_false {α : Type} (p : α → Bool) (l : List α) (c : α) (cs : List α)
    (h : l.dropWhile p = c :: cs) : p c = false := by
  induction l with
  | nil => cases h
  | cons a t ih =>
    rw [List.dropWhile_cons] at h
    by_cases hp : p a = true
    · rw [if_pos hp] at h
      exact ih h
    · rw [if_neg hp] at h
      injection h with h1 h2
      subst h1
      rw [← Bool.not_eq_true]
      exact hp

theorem splitSlashChars_cons_slash (rest : List Char) :
    splitSlashChars ('/' :: rest) = [] :: splitSlashChars rest := by
  simp [splitSlashChars]

theorem splitSlashChars_cons_ne (c : Char) (rest : List Char) (hc : c ≠ '/') :
    splitSlashChars (c :: rest)
      = match splitSlashChars rest with
        | [] => [[c]]
        | s :: ss => (c :: s) :: ss := by
  simp [splitSlashChars, hc]

theorem splitSlashChars_ne_nil (l : List Char) : splitSlashChars l ≠ [] := by
  cases l with
  | nil => simp [splitSlashChars]
  | cons c rest =>
    by_cases hc : c = '/'
    · subst hc
      rw [splitSlashChars_cons_slash]
      simp
    · rw [splitSlashChars_cons_ne c rest hc]
      cases h : splitSlashChars rest with
      | nil => simp
      | cons s ss => simp

theorem splitSlashChars_append_slash (a b : List Char) :
    splitSlashChars (a ++ '/' :: b) = splitSlashChars a ++ splitSlashChars b := by
  induction a with
  | nil =>
    rw [List.nil_append, splitSlashChars_cons_slash]
    rfl
  | cons c t ih =>
    by_cases hc : c = '/'
    · subst hc
      rw [List.cons_append, splitSlashChars_cons_slash, splitSlashChars_cons_slash, ih,
        List.cons_append]
    · rw [List.cons_append, splitSlashChars_cons_ne c _ hc, splitSlashChars_cons_ne c _ hc, ih]
      obtain ⟨s, ss, hss⟩ : ∃ s ss, splitSlashChars t = s :: ss := by
        cases h : splitSlashChars t with
        | nil => exact absurd h (splitSlashChars_ne_nil t)
        | cons s ss => exact ⟨s, ss, rfl⟩
      rw [hss, List.cons_append]
      rfl

theorem splitSlashChars_replicate_slash (k : Nat) (b : List Char) :
    splitSlashChars (List.replicate k '/' ++ b)
      = List.replicate k [] ++ splitSlashChars b := by
  induction k with
  | zero => simp
  | succ k ih =>
    rw [List.replicate_succ, List.cons_append, splitSlashChars_cons_slash, ih,
      List.replicate_succ, List.cons_append]

theorem foldl_normStep_nil_segs (acc : List (List Char)) (k : Nat) :
    (List.replicate k ([] : List Char)).foldl normStep acc = acc := by
  induction k generalizing acc with
  | zero => rfl
  | succ k ih =>
    rw [List.replicate_succ, List.foldl_cons]
    rw [show normStep acc [] = acc from rfl]
    exact ih acc

theorem startsSlash_of_no_slash (n : String) (h : ∀ c ∈ n.data, c ≠ '/') :
    startsSlash n = false := by
  unfold startsSlash
  cases hd : n.data with
  | nil => rfl
  | cons c t =>
    have hc : c ≠ '/' := h c (by rw [hd]; exact List.mem_cons_self c t)
    simp [headIsSlash, hc]

theorem startsDotDotSlash_of_no_slash (n : String) (h : ∀ c ∈ n.data, c ≠ '/') :
    startsDotDotSlash n = false := by
  unfold startsDotDotSlash
  cases hd : n.data with
  | nil => rfl
  | cons c1 t1 =>
    cases t1 with
    | nil => rfl
    | cons c2 t2 =>
      cases t2 with
      | nil => rfl
      | cons c3 t3 =>
        have h3 : c3 ≠ '/' := h c3 (by rw [hd]; simp)
        simp [h3]

/-! ## Split-and-rejoin preserves path resolution -/

/-- Rejoining a stripped head with a separator resolves like the original
string with its run of separators. -/
theorem normalizeSegs_rejoin_aux (m tl2 : List Char) (k : Nat)
    (hm : m ≠ []) (hhead : headIsSlash m = false) (htl : ∀ c ∈ tl2, c ≠ '/') :
    normalizeSegs (osPathJoin (String.mk m.reverse) (String.mk tl2))
      = normalizeSegs (String.mk (m.reverse ++ '/' :: (List.replicate k '/' ++ tl2))) := by
  have hstl : startsSlash (String.mk tl2) = false := startsSlash_of_no_slash _ htl
  have hne : String.mk m.reverse ≠ "" := by
    rw [Ne, str_eq_empty_iff]
    show m.reverse ≠ []
    exact fun h2 => hm (List.reverse_eq_nil_iff.mp h2)
  have hes : endsSlash (String.mk m.reverse) = false := by
    unfold endsSlash
    show headIsSlash m.reverse.reverse = false
    rw [List.reverse_reverse]
    exact hhead
  rw [osPathJoin_of_sep _ _ hstl hne hes]
  unfold normalizeSegs
  congr 1
  have hdata : (String.mk m.reverse ++ "/" ++ String.mk tl2).data
      = m.reverse ++ '/' :: tl2 := by
    rw [String.data_append, String.data_append]
    show (m.reverse ++ ['/']) ++ tl2 = m.reverse ++ '/' :: tl2
    rw [List.append_assoc]
    rfl
  rw [hdata]
  show (splitSlashChars (m.reverse ++ '/' :: tl2)).foldl normStep []
      = (splitSlashChars (m.reverse ++ '/' :: (List.replicate k '/' ++ tl2))).foldl normStep []
  rw [splitSlashChars_append_slash, splitSlashChars_append_slash,
    splitSlashChars_replicate_slash, List.foldl_append, List.foldl_append,
    List.foldl_append, foldl_normStep_nil_segs]

/-- The split head rejoined with the split tail resolves to the same
canonical segments as the original path. -/
theorem normalizeSegs_split_rejoin (p : String) :
    normalizeSegs (osPathJoin (osPathSplit p).fst (osPathSplit p).snd)
      = normalizeSegs p := by
  have hdecomp := congrArg List.reverse
    (List.takeWhile_append_dropWhile (fun c => c ≠ '/') p.data.reverse)
  rw [List.reverse_append, List.reverse_reverse] at hdecomp
  have hsnd : (osPathSplit p).snd
      = String.mk (p.data.reverse.takeWhile (fun c => c ≠ '/')).reverse := rfl
  have htlne : ∀ c ∈ (p.data.reverse.takeWhile (fun c => c ≠ '/')).reverse, c ≠ '/' := by
    intro c hc
    have h2 := List.mem_takeWhile_imp (List.mem_reverse.mp hc)
    simpa using h2
  have hstl : startsSlash (String.mk (p.data.reverse.takeWhile (fun c => c ≠ '/')).reverse)
      = false :=
    startsSlash_of_no_slash _ htlne
  by_cases hall :
      ((p.data.reverse.dropWhile (fun c => c ≠ '/')).reverse).all (fun c => c = '/') = true
  · have hfst2 : (osPathSplit p).fst
        = String.mk (p.data.reverse.dropWhile (fun c => c ≠ '/')).reverse := by
      show String.mk
          (if ((p.data.reverse.dropWhile (fun c => c ≠ '/')).reverse).all (fun c => c = '/')
           then (p.data.reverse.dropWhile (fun c => c ≠ '/')).reverse
           else rstripSlash ((p.data.reverse.dropWhile (fun c => c ≠ '/')).reverse)) = _
      rw [if_pos hall]
    have hor : String.mk ((p.data.reverse.dropWhile (fun c => c ≠ '/')).reverse) = ""
        ∨ endsSlash (String.mk ((p.data.reverse.dropWhile (fun c => c ≠ '/')).reverse))
            = true := by
      cases hdlr : p.data.reverse.dropWhile (fun c => c ≠ '/') with
      | nil => exact Or.inl rfl
      | cons e es =>
        right
        have he : e = '/' := by
          have h2 := dropWhile_first_false (fun c => c ≠ '/') p.data.reverse e es hdlr
          simpa using h2
        unfold endsSlash
        show headIsSlash ((e :: es).reverse).reverse = true
        rw [List.reverse_reverse]
        simp [headIsSlash, he]
    have hps : osPathJoin (osPathSplit p).fst (osPathSplit p).snd = p := by
      rw [hfst2, hsnd, osPathJoin_of_empty_or_slash _ _ hstl hor]
      apply String.ext
      rw [String.data_append]
      exact hdecomp
    rw [hps]
  · rw [Bool.not_eq_true] at hall
    have hfst2 : (osPathSplit p).fst
        = String.mk (rstripSlash (p.data.reverse.dropWhile (fun c => c ≠ '/')).reverse) := by
      show String.mk
          (if ((p.data.reverse.dropWhile (fun c => c ≠ '/')).reverse).all (fun c => c = '/')
           then (p.data.reverse.dropWhile (fun c => c ≠ '/')).reverse
           else rstripSlash ((p.data.reverse.dropWhile (fun c => c ≠ '/')).reverse)) = _
      have hnott : ¬(((p.data.reverse.dropWhile (fun c => c ≠ '/')).reverse).all
          (fun c => c = '/') = true) := by
        intro h
        rw [hall] at h
        exact Bool.noConfusion h
      rw [if_neg hnott]
    have hstrip : rstripSlash (p.data.reverse.dropWhile (fun c => c ≠ '/')).reverse
        = ((p.data.reverse.dropWhile (fun c => c ≠ '/')).dropWhile
            (fun c => c = '/')).reverse := by
      unfold rstripSlash
      rw [List.reverse_reverse]
    have hdlne : p.data.reverse.dropWhile (fun c => c ≠ '/') ≠ [] := by
      intro h0
      rw [h0] at hall
      simp at hall
    obtain ⟨e, es, hes⟩ : ∃ e es,
        p.data.reverse.dropWhile (fun c => c ≠ '/') = e :: es := by
      cases h0 : p.data.reverse.dropWhile (fun c => c ≠ '/') with
      | nil => exact absurd h0 hdlne
      | cons e es => exact ⟨e, es, rfl⟩
    have he : e = '/' := by
      have h2 := dropWhile_first_false (fun c => c ≠ '/') p.data.reverse e es hes
      simpa using h2
    subst he
    obtain ⟨f, fs2, hm⟩ : ∃ f fs2,
        (p.data.reverse.dropWhile (fun c => c ≠ '/')).dropWhile (fun c => c = '/')
          = f :: fs2 := by
      cases h0 : (p.data.reverse.dropWhile (fun c => c ≠ '/')).dropWhile (fun c => c = '/') with
      | nil =>
        exfalso
        have hdlall : ∀ c ∈ p.data.reverse.dropWhile (fun c => c ≠ '/'), c = '/' := by
          intro c hc
          have hk := List.takeWhile_append_dropWhile (fun c => c = '/')
            (p.data.reverse.dropWhile (fun c => c ≠ '/'))
          rw [h0, List.append_nil] at hk
          rw [← hk] at hc
          have h3 := List.mem_takeWhile_imp hc
          simpa using h3
        have hta : ((p.data.reverse.dropWhile (fun c => c ≠ '/')).reverse).all
            (fun c => c = '/') = true := by
          rw [List.all_eq_true]
          intro c hc
          have h4 := hdlall c (List.mem_reverse.mp hc)
          simp [h4]
        rw [hta] at hall
        cases hall
      | cons f fs2 => exact ⟨f, fs2, rfl⟩
    have hfne : f ≠ '/' := by
      have h2 := dropWhile_first_false (fun c => c = '/')
        (p.data.reverse.dropWhile (fun c => c ≠ '/')) f fs2 hm
      simpa using h2
    have hk2 : (p.data.reverse.dropWhile (fun c => c ≠ '/')).takeWhile (fun c => c = '/')
        = '/' :: es.takeWhile (fun c => c = '/') := by
      rw [hes, List.takeWhile_cons, if_pos (by simp)]
    have hk3 : es.takeWhile (fun c => c = '/')
        = List.replicate (es.takeWhile (fun c => c = '/')).length '/' := by
      apply List.eq_replicate_of_mem
      intro b hb
      have h3 := List.mem_takeWhile_imp hb
      simpa using h3
    have hdl : p.data.reverse.dropWhile (fun c => c ≠ '/')
        = ('/' :: List.replicate (es.takeWhile (fun c => c = '/')).length '/')
            ++ (f :: fs2) := by
      conv_lhs => rw [← List.takeWhile_append_dropWhile (fun c => c = '/')
        (p.data.reverse.dropWhile (fun c => c ≠ '/'))]
      rw [hk2, hm]
      conv_lhs => rw [hk3]
    have hpd : p.data = (f :: fs2).reverse
        ++ '/' :: (List.replicate (es.takeWhile (fun c => c = '/')).length '/'
            ++ (p.data.reverse.takeWhile (fun c => c ≠ '/')).reverse) := by
      conv_lhs => rw [← hdecomp]
      rw [hdl, List.reverse_append, List.reverse_cons, List.reverse_cons,
        List.reverse_replicate, ← List.replicate_succ', List.replicate_succ]
      simp [List.append_assoc]
    rw [hfst2, hstrip, hm, hsnd]
    rw [normalizeSegs_rejoin_aux (f :: fs2)
      ((p.data.reverse.takeWhile (fun c => c ≠ '/')).reverse)
      (es.takeWhile (fun c => c = '/')).length
      (fun h => List.noConfusion h) (by simp [headIsSlash, hfne]) htlne]
    have hX : String.mk ((f :: fs2).reverse
        ++ '/' :: (List.replicate (es.takeWhile (fun c => c = '/')).length '/'
            ++ (p.data.reverse.takeWhile (fun c => c ≠ '/')).reverse)) = p :=
      String.ext hpd.symm
    rw [hX]

/-- Resolution-level consequence: splitting a path and rejoining it reads
the same file. -/
theorem fileContentAt_split_rejoin (fs : FSNode) (p : String) :
    fileContentAt fs (osPathJoin (osPathSplit p).fst (osPathSplit p).snd)
      = fileContentAt fs p := by
  unfold fileContentAt resolveNode
  rw [normalizeSegs_split_rejoin]

/-- Splitting `osPathJoin D n` returns `n` as the tail when `n` is a
non-empty slash-free component. -/
theorem osPathSplit_join_snd (D n : String) (hne : n.data ≠ [])
    (hnoslash : ∀ c ∈ n.data, c ≠ '/') :
    (osPathSplit (osPathJoin D n)).snd = n := by
  have hsn : startsSlash n = false := startsSlash_of_no_slash n hnoslash
  have hsat : ∀ c ∈ n.data.reverse, decide (c ≠ '/') = true := by
    intro c hc
    simp [hnoslash c (List.mem_reverse.mp hc)]
  by_cases hD : (D = "" ∨ endsSlash D = true)
  · rw [osPathJoin_of_empty_or_slash D n hsn hD]
    show String.mk ((D ++ n).data.reverse.takeWhile (fun c => c ≠ '/')).reverse = n
    rw [String.data_append, List.reverse_append, takeWhile_append_all _ _ _ hsat]
    have hX : (D.data.reverse).takeWhile (fun c => c ≠ '/') = [] := by
      rcases hD with hD | hD
      · rw [(str_eq_empty_iff D).mp hD]
        rfl
      · unfold endsSlash at hD
        cases h : D.data.reverse with
        | nil => rfl
        | cons c t =>
          rw [h] at hD
          have hc : c = '/' := by simpa [headIsSlash] using hD
          rw [List.takeWhile_cons, if_neg (by simp [hc])]
    rw [hX, List.append_nil, List.reverse_reverse]
  · push_neg at hD
    have hD2 : endsSlash D = false := by
      rw [← Bool.not_eq_true]
      exact hD.2
    rw [osPathJoin_of_sep D n hsn hD.1 hD2]
    show String.mk ((D ++ "/" ++ n).data.reverse.takeWhile (fun c => c ≠ '/')).reverse = n
    rw [String.data_append, List.reverse_append, takeWhile_append_all _ _ _ hsat]
    have h5 : (D ++ "/").data.reverse = '/' :: D.data.reverse := by
      rw [String.data_append, List.reverse_append]
      rfl
    rw [h5, List.takeWhile_cons, if_neg (by simp), List.append_nil, List.reverse_reverse]

/-- The file-serving branch of `download_file`. -/
theorem download_file_serves (fs : FSNode) (SH fp : String)
    (hex : pexists fs (osPathJoin SH fp) = true)
    (hdir : pisdir fs (osPathJoin SH fp) = false) :
    download_file fs SH fp
      = send_from_directory fs (osPathSplit (osPathJoin SH fp)).fst
          (osPathSplit (osPathJoin SH fp)).snd := by
  simp [download_file, hex, hdir]

/-- The success branch of `send_from_directory`. -/
theorem send_from_directory_serves (fs : FSNode) (dir_path filename : String)
    (h1 : startsSlash filename = false) (h2 : filename ≠ "..")
    (h3 : startsDotDotSlash filename = false) (content : List Nat)
    (hfc : fileContentAt fs (osPathJoin dir_path filename) = some content) :
    send_from_directory fs dir_path filename = Response.fileResponse filename content := by
  simp [send_from_directory, h1, h2, h3, hfc]

/-- Well-formedness of a directory-entry name: non-empty, not the special
components `.` and `..`, no `/` (impossible inside one component on any
OS), and no `\` (the separator-rewriting hypothesis of the amended
round-trip claim). -/
def validEntryName (n : String) : Bool :=
  decide (n ≠ "" ∧ n ≠ "." ∧ n ≠ ".." ∧ ∀ c ∈ n.data, c ≠ '/' ∧ c ≠ '\\')

/-! ## C3 (counterexample) -/

/-- C3 (counterexample): a file whose name contains a backslash is listed
with `is_dir = false` and `path = "a/b.txt"` (the handler's
`.replace("\\", "/")` rewrites the backslash), but downloading that `path`
yields 404, not the file's bytes. -/
theorem roundtrip_backslash_counterexample :
    list_files fsBackslash "/share" "" =
      Response.listing
        [{ name := "a\\b.txt", path := "a/b.txt", is_dir := false,
           size := 2, last_modified := 5 }] ∧
    download_file fsBackslash "/share" "a/b.txt" = Response.notFound := by decide

/-- C3 (amended): for every entry the listing endpoint returns with
`is_dir = false` whose name is a well-formed directory-entry component free
of backslashes, and for a requested subpath free of backslashes, issuing a
download request against the entry's `path` field yields exactly the bytes
of the source file (the filesystem being unchanged in the model). -/
theorem download_roundtrip (fs : FSNode) (SH sp : String) (items : List Entry) (e : Entry)
    (hlist : list_files fs SH sp = Response.listing items)
    (he : e ∈ items)
    (hdir : e.is_dir = false)
    (hname : validEntryName e.name = true)
    (hsp : hasBackslash sp = false) :
    ∃ content, fileContentAt fs (osPathJoin (osPathJoin SH sp) e.name) = some content ∧
      download_file fs SH e.path = Response.fileResponse e.name content := by
  obtain ⟨hex, hdirg, ns, hls, hitems⟩ := list_files_listing_inv fs SH sp items hlist
  subst hitems
  obtain ⟨n, hn, hmk⟩ := List.mem_filterMap.mp he
  simp only [mkItem] at hmk
  cases hstat : pstat fs (osPathJoin (osPathJoin SH sp) n) with
  | none =>
    rw [hstat] at hmk
    simp at hmk
  | some st =>
    rw [hstat] at hmk
    simp only [Option.some.injEq] at hmk
    subst hmk
    have hdir2 : pisdir fs (osPathJoin (osPathJoin SH sp) n) = false := hdir
    have hname2 : validEntryName n = true := hname
    obtain ⟨hne, hdot, hdd, hcs⟩ := of_decide_eq_true hname2
    have hnoslash : ∀ c ∈ n.data, c ≠ '/' := fun c hc => (hcs c hc).1
    have hnobs : ∀ c ∈ n.data, c ≠ '\\' := fun c hc => (hcs c hc).2
    have hndata : n.data ≠ [] := data_ne_nil_of_ne_empty n hne
    obtain ⟨content, hcontent⟩ : ∃ content,
        fileContentAt fs (osPathJoin (osPathJoin SH sp) n) = some content := by
      unfold pstat at hstat
      unfold pisdir at hdir2
      unfold fileContentAt
      cases hres : resolveNode fs (osPathJoin (osPathJoin SH sp) n) with
      | none =>
        rw [hres] at hstat
        exact absurd hstat (by simp)
      | some node =>
        rw [hres] at hstat hdir2
        cases node with
        | file content2 st2 =>
          refine ⟨content2, ?_⟩
          simp at hstat
          simp [hstat]
        | dir st2 r cs =>
          simp at hstat hdir2
          rw [hstat] at hdir2
          simp at hdir2
    refine ⟨content, hcontent, ?_⟩
    show download_file fs SH (replaceBackslash (osPathJoin sp n))
        = Response.fileResponse n content
    have hpath : replaceBackslash (osPathJoin sp n) = osPathJoin sp n :=
      replaceBackslash_eq_self _
        (osPathJoin_no_backslash sp n (no_backslash_of_hasBackslash_false sp hsp) hnobs)
    rw [hpath]
    have hexA : pexists fs (osPathJoin SH (osPathJoin sp n)) = true := by
      rw [← osPathJoin_assoc]
      unfold pexists
      rw [hstat]
      rfl
    have hdirA : pisdir fs (osPathJoin SH (osPathJoin sp n)) = false := by
      rw [← osPathJoin_assoc]
      exact hdir2
    rw [download_file_serves fs SH (osPathJoin sp n) hexA hdirA]
    rw [← osPathJoin_assoc]
    have hsnd := osPathSplit_join_snd (osPathJoin SH sp) n hndata hnoslash
    rw [hsnd]
    have hsn : startsSlash n = false := startsSlash_of_no_slash n hnoslash
    have hsd : startsDotDotSlash n = false := startsDotDotSlash_of_no_slash n hnoslash
    have hfcx0 := fileContentAt_split_rejoin fs (osPathJoin (osPathJoin SH sp) n)
    rw [hsnd] at hfcx0
    exact send_from_directory_serves fs _ n hsn hdd hsd content (hfcx0.trans hcontent)

/-- Witness for `download_roundtrip` at the concrete filesystem
`fsClean`. -/
theorem download_roundtrip_witness :
    ∃ content, fileContentAt fsClean
        (osPathJoin (osPathJoin "/share" "docs") "hello.txt") = some content ∧
      download_file fsClean "/share" "docs/hello.txt"
        = Response.fileResponse "hello.txt" content :=
  download_roundtrip fsClean "/share" "docs"
    [Entry.mk "hello.txt" "docs/hello.txt" false 3 11]
    (Entry.mk "hello.txt" "docs/hello.txt" false 3 11)
    (by decide) (by decide) (by decide) (by decide) (by decide)
